import Mathlib

/-!
# Verification of the sc360 FOA spatial-audio core

Shallow embedding of the repository's DSP core, translated from the source:

* `src/audio/worklets/foa-binaural-decoder.worklet.ts` — decoder state,
  per-sample processing step, per-block `process` callback, message handler.
  Audio samples and filter coefficients are modelled as rationals (the source
  computes with IEEE doubles/floats; we idealize float arithmetic as exact
  field arithmetic, as the claims are about the algebraic dataflow).
* `public/worklets/foa-encoder.worklet.js` — encoder state and per-sample
  step, over the reals (the encoder evaluates `sin`/`cos`).
* `src/audio/hrtf/hrirBuiltIn.ts` — synthetic HRIR generator, FOA decode
  matrix, trim/pad normalization, and the SOFA loader with its fallback.
-/

namespace SC360

/-! ## Decoder data model (`foa-binaural-decoder.worklet.ts`) -/

/-- `const NUM_SPEAKERS = 8` (decoder worklet line 27). -/
def NUM_SPEAKERS : ℕ := 8

/-- `const HRIR_LENGTH = 128` (decoder worklet line 28). -/
def HRIR_LENGTH : ℕ := 128

/-- The mutable fields of `FOABinauralDecoderProcessor`.  The flat
`Float32Array` fields `hrirData` (length `8*2*128`) and `decodeMatrix`
(length `8*4`) are modelled as total functions from flat index to value;
the processor only ever reads them inside those bounds.  `speakerBuffers`
maps a speaker index and a buffer position to the stored sample. -/
structure DecoderState where
  hrirData : ℕ → ℚ
  decodeMatrix : ℕ → ℚ
  speakerBuffers : ℕ → ℕ → ℚ
  bufferIndex : ℕ
  initialized : Bool

/-- The constructor state (decoder worklet lines 44-65): zero-filled arrays,
`bufferIndex = 0`, `initialized = false`. -/
def initialDecoderState : DecoderState where
  hrirData := fun _ => 0
  decodeMatrix := fun _ => 0
  speakerBuffers := fun _ _ => 0
  bufferIndex := 0
  initialized := false

/-- A `setHRIR` message payload (`event.data` with `type === 'setHRIR'`),
carrying the flat HRIR data and decode matrix. -/
structure HRIRMessage where
  hrirData : ℕ → ℚ
  decodeMatrix : ℕ → ℚ

/-- The `port.onmessage` handler (decoder worklet lines 58-64): a `setHRIR`
message overwrites the filters and the matrix and sets `initialized`. -/
def onSetHRIR (st : DecoderState) (msg : HRIRMessage) : DecoderState :=
  { st with
    hrirData := msg.hrirData
    decodeMatrix := msg.decodeMatrix
    initialized := true }

/-! ## Decoder per-sample step -/

/-- Decode the FOA frame `(w, y, z, x)` to virtual speaker `spk` (decoder
worklet line 115: `w*decW + y*decY + z*decZ + x*decX`, coefficients read at
flat offsets `spk*4 + 0..3`). -/
def speakerSignal (decodeMatrix : ℕ → ℚ) (w y z x : ℚ) (spk : ℕ) : ℚ :=
  w * decodeMatrix (spk * 4) + y * decodeMatrix (spk * 4 + 1) +
    z * decodeMatrix (spk * 4 + 2) + x * decodeMatrix (spk * 4 + 3)

/-- The circular-buffer read position (decoder worklet lines 131-132):
`let bufIdx = this.bufferIndex - k; if (bufIdx < 0) bufIdx += HRIR_LENGTH`.
JavaScript numbers admit the negative intermediate value, hence ℤ. -/
def codeBufIdx (bufferIndex k : ℕ) : ℤ :=
  let bufIdx : ℤ := (bufferIndex : ℤ) - (k : ℤ)
  if bufIdx < 0 then bufIdx + (HRIR_LENGTH : ℤ) else bufIdx

/-- The speaker ring buffers after the eight writes of one sample step
(decoder worklet line 119: `buffer[this.bufferIndex] = speakerSignal` for
each `spk < NUM_SPEAKERS`). -/
def writeSpeakerBuffers (st : DecoderState) (w y z x : ℚ) : ℕ → ℕ → ℚ :=
  fun spk idx =>
    if spk < NUM_SPEAKERS ∧ idx = st.bufferIndex then
      speakerSignal st.decodeMatrix w y z x spk
    else st.speakerBuffers spk idx

/-- Left-ear convolution accumulator for speaker `spk` (decoder worklet
lines 125-138): `convL += buffer[bufIdx] * hrirData[spk*2*128 + k]`. -/
def convL (buffers : ℕ → ℕ → ℚ) (hrirData : ℕ → ℚ) (bufferIndex spk : ℕ) : ℚ :=
  ∑ k ∈ Finset.range HRIR_LENGTH,
    buffers spk (codeBufIdx bufferIndex k).toNat *
      hrirData (spk * 2 * HRIR_LENGTH + k)

/-- Right-ear convolution accumulator for speaker `spk` (decoder worklet
line 137): `convR += buffer[bufIdx] * hrirData[spk*2*128 + 128 + k]`. -/
def convR (buffers : ℕ → ℕ → ℚ) (hrirData : ℕ → ℚ) (bufferIndex spk : ℕ) : ℚ :=
  ∑ k ∈ Finset.range HRIR_LENGTH,
    buffers spk (codeBufIdx bufferIndex k).toNat *
      hrirData (spk * 2 * HRIR_LENGTH + HRIR_LENGTH + k)

/-- One iteration of the per-sample loop (decoder worklet lines 95-151) on
the Ready path: write each decoded speaker signal into its ring buffer at
the shared cursor, convolve each speaker's recent history with its HRIR
pair, sum, scale by `1/NUM_SPEAKERS`, and only then advance the cursor.
Returns the `(outL, outR)` sample pair and the updated state. -/
def processSample (st : DecoderState) (w y z x : ℚ) : (ℚ × ℚ) × DecoderState :=
  let buffers := writeSpeakerBuffers st w y z x
  let sumL := ∑ spk ∈ Finset.range NUM_SPEAKERS,
    convL buffers st.hrirData st.bufferIndex spk
  let sumR := ∑ spk ∈ Finset.range NUM_SPEAKERS,
    convR buffers st.hrirData st.bufferIndex spk
  let scale : ℚ := 1 / (NUM_SPEAKERS : ℚ)
  ((sumL * scale, sumR * scale),
   { st with
     speakerBuffers := buffers
     bufferIndex := (st.bufferIndex + 1) % HRIR_LENGTH })

/-! ## Decoder per-block step -/

/-- The FOA input frame at sample `i` of a block:
`(inW[i], inY[i], inZ[i], inX[i])` (decoder worklet lines 86-89, 100-103). -/
def inputFrame (input : List (List ℚ)) (i : ℕ) : ℚ × ℚ × ℚ × ℚ :=
  ((input.getD 0 []).getD i 0, (input.getD 1 []).getD i 0,
   (input.getD 2 []).getD i 0, (input.getD 3 []).getD i 0)

/-- State evolution of a Ready `process` call over the frames of a block:
left fold of the per-sample step (outputs discarded). -/
def processFrames (st : DecoderState) (frames : List (ℚ × ℚ × ℚ × ℚ)) :
    DecoderState :=
  frames.foldl (fun s f => (processSample s f.1 f.2.1 f.2.2.1 f.2.2.2).2) st

/-- A Ready `process` call over the frames of a block, also collecting the
two output channels in order. -/
def processFramesOut (st : DecoderState) (frames : List (ℚ × ℚ × ℚ × ℚ)) :
    (List ℚ × List ℚ) × DecoderState :=
  frames.foldl
    (fun acc f =>
      let r := processSample acc.2 f.1 f.2.1 f.2.2.1 f.2.2.2
      ((acc.1.1 ++ [r.1.1], acc.1.2 ++ [r.1.2]), r.2))
    (([], []), st)

/-- The host's pre-zeroed output buffers, untouched (returning from
`process` without writing them emits silence). -/
def silenceBlock (numOutputChannels blockSize : ℕ) : List (List ℚ) :=
  List.replicate numOutputChannels (List.replicate blockSize 0)

/-- The `process` callback (decoder worklet lines 67-154).  `input` is the
list of input channels of `inputs[0]`; `numOutputChannels` and `blockSize`
describe the host-allocated `outputs[0]`.  With fewer than 4 input or 2
output channels, or before initialization, it returns leaving the zeroed
output buffers and all state untouched; otherwise it runs the per-sample
loop over `input[0].length` samples, writing output channels 0 and 1. -/
def processBlock (st : DecoderState) (input : List (List ℚ))
    (numOutputChannels blockSize : ℕ) : List (List ℚ) × DecoderState :=
  if input.length < 4 ∨ numOutputChannels < 2 then
    (silenceBlock numOutputChannels blockSize, st)
  else if st.initialized = false then
    (silenceBlock numOutputChannels blockSize, st)
  else
    let bs := (input.getD 0 []).length
    let frames := (List.range bs).map (inputFrame input)
    let r := processFramesOut st frames
    (r.1.1 :: r.1.2 :: List.replicate (numOutputChannels - 2)
      (List.replicate blockSize 0), r.2)

/-- An external event a decoder instance can experience: a port message or
a `process` callback. -/
inductive DecoderEvent where
  | message (msg : HRIRMessage)
  | block (input : List (List ℚ)) (numOutputChannels blockSize : ℕ)

/-- The effect of one event on the decoder state. -/
def stepEvent (st : DecoderState) (e : DecoderEvent) : DecoderState :=
  match e with
  | .message msg => onSetHRIR st msg
  | .block input numOut bs => (processBlock st input numOut bs).2

/-- The decoder state reached from the constructor state by a sequence of
events. -/
def runEvents (evs : List DecoderEvent) : DecoderState :=
  evs.foldl stepEvent initialDecoderState

/-! ## C1: the per-sample processing step -/

/-- The conditional read index of the code agrees with the mathematical
`(cursor - k) mod HRIR_LENGTH` (integer modulus) when both arguments are
in range. -/
theorem codeBufIdx_eq (b k : ℕ) (hb : b < HRIR_LENGTH) (hk : k < HRIR_LENGTH) :
    codeBufIdx b k = ((b : ℤ) - (k : ℤ)) % (HRIR_LENGTH : ℤ) := by
  unfold codeBufIdx HRIR_LENGTH at *
  dsimp only
  split <;> omega

/-- `convL` written with the mathematical ring-buffer index. -/
theorem convL_eq_spec (buffers : ℕ → ℕ → ℚ) (hrirData : ℕ → ℚ) (b spk : ℕ)
    (hb : b < HRIR_LENGTH) :
    convL buffers hrirData b spk =
      ∑ k ∈ Finset.range HRIR_LENGTH,
        buffers spk (((b : ℤ) - (k : ℤ)) % (HRIR_LENGTH : ℤ)).toNat *
          hrirData (spk * 2 * HRIR_LENGTH + k) := by
  unfold convL
  refine Finset.sum_congr rfl fun k hk => ?_
  rw [codeBufIdx_eq b k hb (Finset.mem_range.mp hk)]

/-- `convR` written with the mathematical ring-buffer index. -/
theorem convR_eq_spec (buffers : ℕ → ℕ → ℚ) (hrirData : ℕ → ℚ) (b spk : ℕ)
    (hb : b < HRIR_LENGTH) :
    convR buffers hrirData b spk =
      ∑ k ∈ Finset.range HRIR_LENGTH,
        buffers spk (((b : ℤ) - (k : ℤ)) % (HRIR_LENGTH : ℤ)).toNat *
          hrirData (spk * 2 * HRIR_LENGTH + HRIR_LENGTH + k) := by
  unfold convR
  refine Finset.sum_congr rfl fun k hk => ?_
  rw [codeBufIdx_eq b k hb (Finset.mem_range.mp hk)]

/-- The property claimed of one per-sample step of a Ready decoder on the
ACN frame `[w, y, z, x]`: every speaker signal `W*decW + Y*decY + Z*decZ +
X*decX` is written into its ring buffer at the shared cursor; the left
output is the sum over the 8 speakers of the convolution
`Σ_k ringBuffer[(cursor - k) mod 128] * left_s[k]`, divided by 8 (and
symmetrically for the right output with `right_s`); and only then the
shared cursor advances by one, wrapping modulo 128. -/
def PerSampleSpec (st : DecoderState) (w y z x : ℚ) : Prop :=
  (∀ spk < NUM_SPEAKERS,
    (processSample st w y z x).2.speakerBuffers spk st.bufferIndex =
      speakerSignal st.decodeMatrix w y z x spk) ∧
  (processSample st w y z x).1.1 =
    (∑ spk ∈ Finset.range NUM_SPEAKERS, ∑ k ∈ Finset.range HRIR_LENGTH,
      (processSample st w y z x).2.speakerBuffers spk
          (((st.bufferIndex : ℤ) - (k : ℤ)) % (HRIR_LENGTH : ℤ)).toNat *
        st.hrirData (spk * 2 * HRIR_LENGTH + k)) / 8 ∧
  (processSample st w y z x).1.2 =
    (∑ spk ∈ Finset.range NUM_SPEAKERS, ∑ k ∈ Finset.range HRIR_LENGTH,
      (processSample st w y z x).2.speakerBuffers spk
          (((st.bufferIndex : ℤ) - (k : ℤ)) % (HRIR_LENGTH : ℤ)).toNat *
        st.hrirData (spk * 2 * HRIR_LENGTH + HRIR_LENGTH + k)) / 8 ∧
  (processSample st w y z x).2.bufferIndex = (st.bufferIndex + 1) % HRIR_LENGTH

/-- **C1**: for every Ready decoder state (cursor in range) and every ACN
input frame `[W, Y, Z, X]`, the per-sample step decodes to the 8 virtual
speakers, writes each speaker signal into its ring buffer at the shared
cursor, convolves the updated ring-buffer history at indices
`(cursor - k) mod 128` against the left/right HRIRs, outputs the speaker
sums divided by 8, and only then advances the cursor modulo 128. -/
theorem c1_per_sample_step (st : DecoderState) (hready : st.initialized = true)
    (hcur : st.bufferIndex < HRIR_LENGTH) (w y z x : ℚ) :
    PerSampleSpec st w y z x := by
  refine ⟨?_, ?_, ?_, ?_⟩
  · intro spk hspk
    show writeSpeakerBuffers st w y z x spk st.bufferIndex = _
    unfold writeSpeakerBuffers
    rw [if_pos ⟨hspk, rfl⟩]
  · show (∑ spk ∈ Finset.range NUM_SPEAKERS,
        convL (writeSpeakerBuffers st w y z x) st.hrirData st.bufferIndex spk) *
          (1 / (NUM_SPEAKERS : ℚ)) = _
    rw [Finset.sum_congr rfl fun spk _ =>
      convL_eq_spec (writeSpeakerBuffers st w y z x) st.hrirData st.bufferIndex spk hcur,
      show (processSample st w y z x).2.speakerBuffers = writeSpeakerBuffers st w y z x from rfl]
    norm_num [NUM_SPEAKERS]
    ring
  · show (∑ spk ∈ Finset.range NUM_SPEAKERS,
        convR (writeSpeakerBuffers st w y z x) st.hrirData st.bufferIndex spk) *
          (1 / (NUM_SPEAKERS : ℚ)) = _
    rw [Finset.sum_congr rfl fun spk _ =>
      convR_eq_spec (writeSpeakerBuffers st w y z x) st.hrirData st.bufferIndex spk hcur,
      show (processSample st w y z x).2.speakerBuffers = writeSpeakerBuffers st w y z x from rfl]
    norm_num [NUM_SPEAKERS]
    ring
  · rfl

/-- A concrete Ready decoder state used to witness the Ready-path theorems:
zero filters and matrix, zero history, cursor 0, initialized. -/
def testReadyState : DecoderState where
  hrirData := fun _ => 0
  decodeMatrix := fun _ => 0
  speakerBuffers := fun _ _ => 0
  bufferIndex := 0
  initialized := true

/-- Witness for C1 at a concrete Ready state and frame. -/
theorem c1_per_sample_step_witness :
    testReadyState.initialized = true ∧
      testReadyState.bufferIndex < HRIR_LENGTH ∧
      PerSampleSpec testReadyState 1 0 0 0 :=
  ⟨rfl, by decide, c1_per_sample_step testReadyState rfl (by decide) 1 0 0 0⟩

/-! ## Block-level lemmas -/

/-- With fewer than 4 input or 2 output channels, `process` returns at once:
silence out, state untouched. -/
theorem processBlock_fewChannels (st : DecoderState) (input : List (List ℚ))
    (numOut bs : ℕ) (h : input.length < 4 ∨ numOut < 2) :
    processBlock st input numOut bs = (silenceBlock numOut bs, st) := by
  simp [processBlock, h]

/-- Before initialization, `process` returns at once: silence out, state
untouched (whatever the channel shape). -/
theorem processBlock_uninit (st : DecoderState) (input : List (List ℚ))
    (numOut bs : ℕ) (h : st.initialized = false) :
    processBlock st input numOut bs = (silenceBlock numOut bs, st) := by
  by_cases hc : input.length < 4 ∨ numOut < 2 <;> simp [processBlock, hc, h]

/-- The output-collecting fold and the state-only fold evolve the state
identically. -/
theorem processFramesOut_snd (st : DecoderState)
    (frames : List (ℚ × ℚ × ℚ × ℚ)) :
    (processFramesOut st frames).2 = processFrames st frames := by
  induction frames using List.reverseRecOn with
  | nil => rfl
  | append_singleton fs f ih =>
      simp only [processFramesOut, processFrames, List.foldl_append,
        List.foldl_cons, List.foldl_nil] at *
      rw [ih]

/-- On the Ready path with well-shaped channels, `process` runs the
per-sample loop over all `input[0].length` frames. -/
theorem processBlock_ready (st : DecoderState) (input : List (List ℚ))
    (numOut bs : ℕ) (hinit : st.initialized = true)
    (hch : ¬(input.length < 4 ∨ numOut < 2)) :
    (processBlock st input numOut bs).2 =
      processFrames st
        ((List.range (input.getD 0 []).length).map (inputFrame input)) := by
  simp [processBlock, hch, hinit, processFramesOut_snd]

/-- A per-sample step changes neither the filters, nor the matrix, nor the
initialization flag. -/
theorem processSample_preserves (st : DecoderState) (w y z x : ℚ) :
    (processSample st w y z x).2.hrirData = st.hrirData ∧
      (processSample st w y z x).2.decodeMatrix = st.decodeMatrix ∧
      (processSample st w y z x).2.initialized = st.initialized :=
  ⟨rfl, rfl, rfl⟩

/-- Folding per-sample steps changes neither the filters, nor the matrix,
nor the initialization flag. -/
theorem processFrames_preserves (frames : List (ℚ × ℚ × ℚ × ℚ)) :
    ∀ st : DecoderState,
      (processFrames st frames).hrirData = st.hrirData ∧
        (processFrames st frames).decodeMatrix = st.decodeMatrix ∧
        (processFrames st frames).initialized = st.initialized := by
  induction frames with
  | nil => exact fun st => ⟨rfl, rfl, rfl⟩
  | cons f fs ih =>
      intro st
      simpa only [processFrames, List.foldl_cons] using
        ih (processSample st f.1 f.2.1 f.2.2.1 f.2.2.2).2

/-- The cursor after folding a list of frames: it advances by one per frame,
wrapping modulo `HRIR_LENGTH`. -/
theorem processFrames_bufferIndex (frames : List (ℚ × ℚ × ℚ × ℚ)) :
    ∀ st : DecoderState, st.bufferIndex < HRIR_LENGTH →
      (processFrames st frames).bufferIndex =
        (st.bufferIndex + frames.length) % HRIR_LENGTH := by
  induction frames with
  | nil =>
      intro st hb
      unfold HRIR_LENGTH at *
      simpa [processFrames] using (Nat.mod_eq_of_lt hb).symm
  | cons f fs ih =>
      intro st hb
      have h1 : ((processSample st f.1 f.2.1 f.2.2.1 f.2.2.2).2).bufferIndex =
          (st.bufferIndex + 1) % HRIR_LENGTH := rfl
      have h2 : ((processSample st f.1 f.2.1 f.2.2.1 f.2.2.2).2).bufferIndex <
          HRIR_LENGTH := by
        rw [h1]; unfold HRIR_LENGTH; omega
      have := ih (processSample st f.1 f.2.1 f.2.2.1 f.2.2.2).2 h2
      simp only [processFrames, List.foldl_cons] at *
      rw [this, h1]
      unfold HRIR_LENGTH
      simp only [List.length_cons]
      omega

/-- One event keeps the cursor inside `[0, HRIR_LENGTH)`. -/
theorem stepEvent_bufferIndex_lt (st : DecoderState) (e : DecoderEvent)
    (hb : st.bufferIndex < HRIR_LENGTH) :
    (stepEvent st e).bufferIndex < HRIR_LENGTH := by
  cases e with
  | message msg => exact hb
  | block input numOut bs =>
      show (processBlock st input numOut bs).2.bufferIndex < HRIR_LENGTH
      by_cases hc : input.length < 4 ∨ numOut < 2
      · rw [processBlock_fewChannels st input numOut bs hc]; exact hb
      · cases hinit : st.initialized with
        | false => rw [processBlock_uninit st input numOut bs hinit]; exact hb
        | true =>
            rw [processBlock_ready st input numOut bs hinit hc,
              processFrames_bufferIndex _ st hb]
            unfold HRIR_LENGTH
            omega

/-- Any state reached from the constructor state has its cursor inside
`[0, HRIR_LENGTH)`. -/
theorem runEvents_bufferIndex_lt (evs : List DecoderEvent) :
    (runEvents evs).bufferIndex < HRIR_LENGTH := by
  suffices h : ∀ st : DecoderState, st.bufferIndex < HRIR_LENGTH →
      (evs.foldl stepEvent st).bufferIndex < HRIR_LENGTH by
    exact h initialDecoderState (by decide)
  induction evs with
  | nil => exact fun st hb => hb
  | cons e es ih =>
      intro st hb
      exact ih (stepEvent st e) (stepEvent_bufferIndex_lt st e hb)

/-! ## C3: the decoder state machine -/

/-- **C3**: the decoder starts Uninitialized; while Uninitialized (or with
fewer than 4 input / 2 output channels) every `process` call emits silence
and leaves the state untouched; any `setHRIR` message (in particular a
valid, correctly-shaped one) makes it Ready at once; no event ever clears
the Ready flag (re-initialization only overwrites filters and matrix); and
once Ready a well-shaped `process` call runs the per-sample pipeline over
every frame of the block, advancing the cursor once per frame. -/
theorem c3_decoder_state_machine :
    initialDecoderState.initialized = false ∧
    (∀ (st : DecoderState) (input : List (List ℚ)) (numOut bs : ℕ),
      st.initialized = false →
        processBlock st input numOut bs = (silenceBlock numOut bs, st)) ∧
    (∀ (st : DecoderState) (input : List (List ℚ)) (numOut bs : ℕ),
      input.length < 4 ∨ numOut < 2 →
        processBlock st input numOut bs = (silenceBlock numOut bs, st)) ∧
    (∀ (st : DecoderState) (msg : HRIRMessage),
      (onSetHRIR st msg).initialized = true ∧
        (onSetHRIR st msg).hrirData = msg.hrirData ∧
        (onSetHRIR st msg).decodeMatrix = msg.decodeMatrix) ∧
    (∀ (st : DecoderState) (e : DecoderEvent),
      st.initialized = true → (stepEvent st e).initialized = true) ∧
    (∀ (st : DecoderState) (input : List (List ℚ)) (numOut bs : ℕ),
      st.initialized = true → ¬(input.length < 4 ∨ numOut < 2) →
      st.bufferIndex < HRIR_LENGTH →
        (processBlock st input numOut bs).2 =
          processFrames st
            ((List.range (input.getD 0 []).length).map (inputFrame input)) ∧
        (processBlock st input numOut bs).2.bufferIndex =
          (st.bufferIndex + (input.getD 0 []).length) % HRIR_LENGTH) := by
  refine ⟨rfl, fun st input numOut bs h => processBlock_uninit st input numOut bs h,
    fun st input numOut bs h => processBlock_fewChannels st input numOut bs h,
    fun st msg => ⟨rfl, rfl, rfl⟩, ?_, ?_⟩
  · intro st e hinit
    cases e with
    | message msg => rfl
    | block input numOut bs =>
        show (processBlock st input numOut bs).2.initialized = true
        by_cases hc : input.length < 4 ∨ numOut < 2
        · rw [processBlock_fewChannels st input numOut bs hc]; exact hinit
        · rw [processBlock_ready st input numOut bs hinit hc,
            (processFrames_preserves _ st).2.2]
          exact hinit
  · intro st input numOut bs hinit hch hb
    refine ⟨processBlock_ready st input numOut bs hinit hch, ?_⟩
    rw [processBlock_ready st input numOut bs hinit hch,
      processFrames_bufferIndex _ st hb]
    simp

/-- A concrete well-shaped one-sample FOA input block. -/
def testInputBlock : List (List ℚ) := [[1], [0], [0], [0]]

/-- A concrete `setHRIR` message. -/
def testMessage : HRIRMessage where
  hrirData := fun _ => 0
  decodeMatrix := fun _ => 0

/-- Witness for C3: the conjuncts instantiated at concrete states, blocks
and messages. -/
theorem c3_decoder_state_machine_witness :
    initialDecoderState.initialized = false ∧
    processBlock initialDecoderState testInputBlock 2 1 =
      (silenceBlock 2 1, initialDecoderState) ∧
    processBlock testReadyState [] 2 1 = (silenceBlock 2 1, testReadyState) ∧
    (onSetHRIR initialDecoderState testMessage).initialized = true ∧
    (stepEvent testReadyState (DecoderEvent.message testMessage)).initialized
      = true ∧
    (processBlock testReadyState testInputBlock 2 1).2.bufferIndex =
      (testReadyState.bufferIndex +
        (testInputBlock.getD 0 []).length) % HRIR_LENGTH :=
  ⟨c3_decoder_state_machine.1,
   c3_decoder_state_machine.2.1 initialDecoderState testInputBlock 2 1 rfl,
   c3_decoder_state_machine.2.2.1 testReadyState [] 2 1 (by decide),
   (c3_decoder_state_machine.2.2.2.1 initialDecoderState testMessage).1,
   c3_decoder_state_machine.2.2.2.2.1 testReadyState
     (DecoderEvent.message testMessage) rfl,
   (c3_decoder_state_machine.2.2.2.2.2 testReadyState testInputBlock 2 1 rfl
     (by decide) (by decide)).2⟩

/-! ## C10: not-ready `process` calls leave the processing state untouched -/

/-- An event that is a `process` callback (as opposed to a port message). -/
def IsBlockEvent : DecoderEvent → Prop := fun e =>
  match e with
  | .block _ _ _ => True
  | .message _ => False

/-- Before any message has arrived, `process` callbacks leave the decoder
state exactly as constructed. -/
theorem runEvents_all_blocks (blocks : List DecoderEvent)
    (h : ∀ e ∈ blocks, IsBlockEvent e) :
    runEvents blocks = initialDecoderState := by
  unfold runEvents
  induction blocks with
  | nil => rfl
  | cons e es ih =>
      have he : IsBlockEvent e := h e (List.mem_cons_self e es)
      have hstep : stepEvent initialDecoderState e = initialDecoderState := by
        cases e with
        | message msg => exact absurd he (by simp [IsBlockEvent])
        | block input numOut bs =>
            show (processBlock initialDecoderState input numOut bs).2 = _
            rw [processBlock_uninit initialDecoderState input numOut bs rfl]
      rw [List.foldl_cons, hstep]
      exact ih fun e he => h e (List.mem_cons_of_mem _ he)

/-- **C10**: whenever `process` runs while the decoder is not ready —
uninitialized, or with fewer than 4 input / 2 output channels — it returns
before touching any processing state (the whole state, in particular every
ring buffer and the shared cursor, is unchanged); `setHRIR` messages never
touch the ring buffers or the cursor; hence after any number of pre-ready
blocks followed by initialization, the history is still all-zero and the
cursor still 0, so the first processed block convolves against an all-zero
history. -/
theorem c10_not_ready_frame_condition :
    (∀ (st : DecoderState) (input : List (List ℚ)) (numOut bs : ℕ),
      st.initialized = false ∨ input.length < 4 ∨ numOut < 2 →
        (processBlock st input numOut bs).2 = st) ∧
    (∀ (st : DecoderState) (msg : HRIRMessage),
      (onSetHRIR st msg).speakerBuffers = st.speakerBuffers ∧
        (onSetHRIR st msg).bufferIndex = st.bufferIndex) ∧
    (∀ blocks : List DecoderEvent, (∀ e ∈ blocks, IsBlockEvent e) →
      ∀ msg : HRIRMessage,
        (runEvents (blocks ++ [DecoderEvent.message msg])).speakerBuffers
            = (fun _ _ => 0) ∧
        (runEvents (blocks ++ [DecoderEvent.message msg])).bufferIndex = 0 ∧
        (runEvents (blocks ++ [DecoderEvent.message msg])).initialized
            = true) := by
  refine ⟨?_, fun st msg => ⟨rfl, rfl⟩, ?_⟩
  · intro st input numOut bs h
    rcases h with h | h
    · rw [processBlock_uninit st input numOut bs h]
    · rw [processBlock_fewChannels st input numOut bs h]
  · intro blocks hblocks msg
    have : runEvents (blocks ++ [DecoderEvent.message msg]) =
        onSetHRIR (runEvents blocks) msg := by
      unfold runEvents
      rw [List.foldl_append]
      rfl
    rw [this, runEvents_all_blocks blocks hblocks]
    exact ⟨rfl, rfl, rfl⟩

/-- Witness for C10: a channel-deficient block at a Ready state, a message,
and a pre-ready block followed by initialization. -/
theorem c10_not_ready_frame_condition_witness :
    (processBlock testReadyState [] 2 1).2 = testReadyState ∧
    (onSetHRIR testReadyState testMessage).speakerBuffers
        = testReadyState.speakerBuffers ∧
    (runEvents ([DecoderEvent.block [] 2 1] ++
        [DecoderEvent.message testMessage])).bufferIndex = 0 :=
  ⟨c10_not_ready_frame_condition.1 testReadyState [] 2 1 (Or.inr (by decide)),
   (c10_not_ready_frame_condition.2.1 testReadyState testMessage).1,
   (c10_not_ready_frame_condition.2.2 [DecoderEvent.block [] 2 1]
     (by intro e he; simp at he; subst he; trivial) testMessage).2.1⟩

/-! ## C4: ring-buffer history -/

/-- Ring-buffer content after folding a block of frames: for `k` below both
the number of processed frames and the buffer length, the entry of ring
buffer `spk` at position `(c0 + (n - 1 - k)) mod 128` (where `c0` is the
starting cursor and `n` the frame count) is the decoded speaker signal of
the frame processed `k` steps before the end. -/
theorem processFrames_buffer_content (frames : List (ℚ × ℚ × ℚ × ℚ)) :
    ∀ (st : DecoderState), st.bufferIndex < HRIR_LENGTH →
    ∀ spk, spk < NUM_SPEAKERS → ∀ k, k < frames.length → k < HRIR_LENGTH →
      (processFrames st frames).speakerBuffers spk
          ((st.bufferIndex + (frames.length - 1 - k)) % HRIR_LENGTH) =
        speakerSignal st.decodeMatrix
          (frames.getD (frames.length - 1 - k) (0, 0, 0, 0)).1
          (frames.getD (frames.length - 1 - k) (0, 0, 0, 0)).2.1
          (frames.getD (frames.length - 1 - k) (0, 0, 0, 0)).2.2.1
          (frames.getD (frames.length - 1 - k) (0, 0, 0, 0)).2.2.2 spk := by
  induction frames using List.reverseRecOn with
  | nil => intro st _ spk _ k hk; simp at hk
  | append_singleton fs f ih =>
      intro st hb spk hspk k hk1 hk2
      have hfold : processFrames st (fs ++ [f]) =
          (processSample (processFrames st fs) f.1 f.2.1 f.2.2.1 f.2.2.2).2 := by
        simp [processFrames, List.foldl_append]
      have hcur : (processFrames st fs).bufferIndex =
          (st.bufferIndex + fs.length) % HRIR_LENGTH :=
        processFrames_bufferIndex fs st hb
      have hmat : (processFrames st fs).decodeMatrix = st.decodeMatrix :=
        (processFrames_preserves fs st).2.1
      have hbuf : (processFrames st (fs ++ [f])).speakerBuffers =
          writeSpeakerBuffers (processFrames st fs) f.1 f.2.1 f.2.2.1 f.2.2.2 := by
        rw [hfold]; rfl
      rw [hbuf]
      unfold writeSpeakerBuffers
      rcases Nat.eq_zero_or_pos k with hk0 | hkpos
      · subst hk0
        have hidx : (st.bufferIndex + ((fs ++ [f]).length - 1 - 0)) % HRIR_LENGTH
            = (processFrames st fs).bufferIndex := by
          rw [hcur]; simp
        rw [if_pos ⟨hspk, hidx⟩, hmat]
        have hget : (fs ++ [f]).getD ((fs ++ [f]).length - 1 - 0) (0, 0, 0, 0)
            = f := by
          simp [List.getD]
        rw [hget]
      · obtain ⟨j, rfl⟩ : ∃ j, k = j + 1 := ⟨k - 1, by omega⟩
        have hjlen : j < fs.length := by
          simp only [List.length_append, List.length_cons, List.length_nil] at hk1
          omega
        have hj128 : j < HRIR_LENGTH := by omega
        have hlen : (fs ++ [f]).length = fs.length + 1 := by simp
        have hsub : (fs ++ [f]).length - 1 - (j + 1) = fs.length - 1 - j := by
          omega
        rw [hsub]
        have hne : ¬(spk < NUM_SPEAKERS ∧
            (st.bufferIndex + (fs.length - 1 - j)) % HRIR_LENGTH =
              (processFrames st fs).bufferIndex) := by
          rw [hcur]
          rintro ⟨-, habs⟩
          unfold HRIR_LENGTH at habs hj128 hk2
          unfold NUM_SPEAKERS at hspk
          omega
        rw [if_neg hne]
        have hget : (fs ++ [f]).getD (fs.length - 1 - j) (0, 0, 0, 0) =
            fs.getD (fs.length - 1 - j) (0, 0, 0, 0) := by
          rw [List.getD_append]
          omega
        rw [hget]
        exact ih st hb spk hspk j hjlen hj128

/-- **C4 (amended)**: in every reachable state the shared cursor lies in
`[0, 128)`; and after a Ready decoder has processed `N ≥ 128` samples, for
every speaker `spk < 8` and every `k < 128`, ring buffer `spk` at index
`(cursor - 1 - k) mod 128` holds the decoded speaker signal from exactly
`k` processed samples ago — i.e. the claimed relation holds with the cursor
at which the most recent sample was written, which is one position behind
the state's cursor; the state's cursor itself, read between samples, points
at the slot holding the oldest retained sample, about to be overwritten. -/
theorem c4_ring_buffer_history :
    (∀ evs : List DecoderEvent, (runEvents evs).bufferIndex < HRIR_LENGTH) ∧
    (∀ (st : DecoderState) (frames : List (ℚ × ℚ × ℚ × ℚ)),
      st.initialized = true → st.bufferIndex < HRIR_LENGTH →
      HRIR_LENGTH ≤ frames.length →
      ∀ spk, spk < NUM_SPEAKERS → ∀ k, k < HRIR_LENGTH →
        (processFrames st frames).speakerBuffers spk
            ((((processFrames st frames).bufferIndex : ℤ) - 1 - (k : ℤ))
              % (HRIR_LENGTH : ℤ)).toNat =
          speakerSignal st.decodeMatrix
            (frames.getD (frames.length - 1 - k) (0, 0, 0, 0)).1
            (frames.getD (frames.length - 1 - k) (0, 0, 0, 0)).2.1
            (frames.getD (frames.length - 1 - k) (0, 0, 0, 0)).2.2.1
            (frames.getD (frames.length - 1 - k) (0, 0, 0, 0)).2.2.2 spk) := by
  refine ⟨runEvents_bufferIndex_lt, ?_⟩
  intro st frames _ hb hlen spk hspk k hk
  have hcur : (processFrames st frames).bufferIndex =
      (st.bufferIndex + frames.length) % HRIR_LENGTH :=
    processFrames_bufferIndex frames st hb
  have hidx : ((((processFrames st frames).bufferIndex : ℤ) - 1 - (k : ℤ))
      % (HRIR_LENGTH : ℤ)).toNat =
      (st.bufferIndex + (frames.length - 1 - k)) % HRIR_LENGTH := by
    rw [hcur]
    unfold HRIR_LENGTH at *
    omega
  rw [hidx]
  exact processFrames_buffer_content frames st hb spk hspk k (by omega) hk

set_option maxRecDepth 4000 in
/-- Witness for C4: the cursor bound at a concrete event list, and the
history relation at a concrete Ready state, block and tap. -/
theorem c4_ring_buffer_history_witness :
    (runEvents [DecoderEvent.message testMessage]).bufferIndex < HRIR_LENGTH ∧
    (processFrames testReadyState
        (List.replicate HRIR_LENGTH ((1 : ℚ), 0, 0, 0))).speakerBuffers 0
        ((((processFrames testReadyState
            (List.replicate HRIR_LENGTH ((1 : ℚ), 0, 0, 0))).bufferIndex : ℤ)
            - 1 - (0 : ℤ)) % (HRIR_LENGTH : ℤ)).toNat =
      speakerSignal testReadyState.decodeMatrix
        ((List.replicate HRIR_LENGTH ((1 : ℚ), 0, 0, 0)).getD
          ((List.replicate HRIR_LENGTH ((1 : ℚ), 0, 0, 0)).length - 1 - 0)
          (0, 0, 0, 0)).1
        ((List.replicate HRIR_LENGTH ((1 : ℚ), 0, 0, 0)).getD
          ((List.replicate HRIR_LENGTH ((1 : ℚ), 0, 0, 0)).length - 1 - 0)
          (0, 0, 0, 0)).2.1
        ((List.replicate HRIR_LENGTH ((1 : ℚ), 0, 0, 0)).getD
          ((List.replicate HRIR_LENGTH ((1 : ℚ), 0, 0, 0)).length - 1 - 0)
          (0, 0, 0, 0)).2.2.1
        ((List.replicate HRIR_LENGTH ((1 : ℚ), 0, 0, 0)).getD
          ((List.replicate HRIR_LENGTH ((1 : ℚ), 0, 0, 0)).length - 1 - 0)
          (0, 0, 0, 0)).2.2.2 0 :=
  ⟨c4_ring_buffer_history.1 [DecoderEvent.message testMessage],
   c4_ring_buffer_history.2 testReadyState
     (List.replicate HRIR_LENGTH ((1 : ℚ), 0, 0, 0)) rfl (by decide)
     (by simp) 0 (by decide) 0 (by decide)⟩

/-- The Ready state used to refute the claim's literal cursor reference:
decode coefficient `decW` of speaker 0 is 1, all other coefficients 0. -/
def c4State : DecoderState where
  hrirData := fun _ => 0
  decodeMatrix := fun i => if i = 0 then 1 else 0
  speakerBuffers := fun _ _ => 0
  bufferIndex := 0
  initialized := true

/-- 128 frames whose W channel carries 1, 2, ..., 128 (Y = Z = X = 0). -/
def c4Frames : List (ℚ × ℚ × ℚ × ℚ) :=
  (List.range HRIR_LENGTH).map fun (n : ℕ) => ((n : ℚ) + 1, 0, 0, 0)

/-- Counterexample to C4 as stated: after the Ready decoder `c4State`
processes the `N = 128` frames of `c4Frames`, ring buffer 0 at index
`(cursor - 0) mod 128` (with `cursor` the state's shared cursor) holds 1 —
the oldest retained speaker signal — while the decoded speaker signal from
0 processed samples ago is 128; the buffer entry at `(cursor - k) mod 128`
therefore differs, at `k = 0` and speaker 0, from the signal `k` samples
ago, and index `cursor` does not hold the most recent decoded sample. -/
theorem c4_cursor_counterexample :
    HRIR_LENGTH ≤ c4Frames.length ∧
    (processFrames c4State c4Frames).speakerBuffers 0
        ((((processFrames c4State c4Frames).bufferIndex : ℤ) - (0 : ℤ))
          % (HRIR_LENGTH : ℤ)).toNat = 1 ∧
    speakerSignal c4State.decodeMatrix
        (c4Frames.getD (c4Frames.length - 1 - 0) (0, 0, 0, 0)).1
        (c4Frames.getD (c4Frames.length - 1 - 0) (0, 0, 0, 0)).2.1
        (c4Frames.getD (c4Frames.length - 1 - 0) (0, 0, 0, 0)).2.2.1
        (c4Frames.getD (c4Frames.length - 1 - 0) (0, 0, 0, 0)).2.2.2 0 = 128 ∧
    (processFrames c4State c4Frames).speakerBuffers 0
        ((((processFrames c4State c4Frames).bufferIndex : ℤ) - (0 : ℤ))
          % (HRIR_LENGTH : ℤ)).toNat ≠
      speakerSignal c4State.decodeMatrix
        (c4Frames.getD (c4Frames.length - 1 - 0) (0, 0, 0, 0)).1
        (c4Frames.getD (c4Frames.length - 1 - 0) (0, 0, 0, 0)).2.1
        (c4Frames.getD (c4Frames.length - 1 - 0) (0, 0, 0, 0)).2.2.1
        (c4Frames.getD (c4Frames.length - 1 - 0) (0, 0, 0, 0)).2.2.2 0 := by
  have hlen : c4Frames.length = HRIR_LENGTH := by
    unfold c4Frames
    rw [List.length_map, List.length_range]
  have hb : c4State.bufferIndex < HRIR_LENGTH := by decide
  have hbuf : (processFrames c4State c4Frames).speakerBuffers 0
      ((((processFrames c4State c4Frames).bufferIndex : ℤ) - (0 : ℤ))
        % (HRIR_LENGTH : ℤ)).toNat = 1 := by
    have hcur : (processFrames c4State c4Frames).bufferIndex =
        (c4State.bufferIndex + c4Frames.length) % HRIR_LENGTH :=
      processFrames_bufferIndex c4Frames c4State hb
    have hidx : ((((processFrames c4State c4Frames).bufferIndex : ℤ) - (0 : ℤ))
        % (HRIR_LENGTH : ℤ)).toNat =
        (c4State.bufferIndex + (c4Frames.length - 1 - 127)) % HRIR_LENGTH := by
      rw [hcur, hlen, show c4State.bufferIndex = 0 from rfl]
      unfold HRIR_LENGTH
      norm_num
    rw [hidx]
    rw [processFrames_buffer_content c4Frames c4State hb 0 (by decide) 127
      (by rw [hlen]; decide) (by decide)]
    have hget : c4Frames.getD (c4Frames.length - 1 - 127) (0, 0, 0, 0) =
        ((1 : ℚ), 0, 0, 0) := by
      rw [hlen, show HRIR_LENGTH - 1 - 127 = 0 from by unfold HRIR_LENGTH; norm_num]
      unfold c4Frames
      rw [List.getD_eq_getElem?_getD, List.getElem?_map,
        List.getElem?_range (by unfold HRIR_LENGTH; norm_num)]
      norm_num
    rw [hget]
    show (1 : ℚ) * c4State.decodeMatrix 0 + 0 * _ + 0 * _ + 0 * _ = 1
    norm_num [c4State]
  have hsig : speakerSignal c4State.decodeMatrix
      (c4Frames.getD (c4Frames.length - 1 - 0) (0, 0, 0, 0)).1
      (c4Frames.getD (c4Frames.length - 1 - 0) (0, 0, 0, 0)).2.1
      (c4Frames.getD (c4Frames.length - 1 - 0) (0, 0, 0, 0)).2.2.1
      (c4Frames.getD (c4Frames.length - 1 - 0) (0, 0, 0, 0)).2.2.2 0 = 128 := by
    have hget : c4Frames.getD (c4Frames.length - 1 - 0) (0, 0, 0, 0) =
        ((128 : ℚ), 0, 0, 0) := by
      rw [hlen, show HRIR_LENGTH - 1 - 0 = 127 from by unfold HRIR_LENGTH; norm_num]
      unfold c4Frames
      rw [List.getD_eq_getElem?_getD, List.getElem?_map,
        List.getElem?_range (by unfold HRIR_LENGTH; norm_num)]
      norm_num
    rw [hget]
    show (128 : ℚ) * c4State.decodeMatrix 0 + 0 * _ + 0 * _ + 0 * _ = 128
    norm_num [c4State]
  refine ⟨by omega, hbuf, hsig, ?_⟩
  rw [hbuf, hsig]
  norm_num

/-! ## Encoder (`foa-encoder.worklet.js`) -/

/-- `const SQRT1_2 = 0.7071067811865476` (encoder worklet line 10): the
IEEE double closest to `1/√2`, idealized as the real `1/√2`. -/
noncomputable def SQRT1_2 : ℝ := (Real.sqrt 2)⁻¹

/-- `this.smoothingCoeff = 0.002` (encoder worklet line 19). -/
def smoothingCoeff : ℝ := 0.002

/-- The mutable per-instance fields of `FOAEncoderProcessor` (constructor,
encoder worklet lines 13-20). -/
structure EncoderState where
  currentAzimuth : ℝ
  currentElevation : ℝ
  targetAzimuth : ℝ
  targetElevation : ℝ

/-- One iteration of the encoder's per-sample loop (encoder worklet lines
60-75): first smooth the current azimuth and elevation toward their
targets, then compute the ACN frame `[W, Y, Z, X]` from the freshly
updated angles.  Returns the frame and the updated state. -/
noncomputable def encoderStep (st : EncoderState) (s : ℝ) :
    (ℝ × ℝ × ℝ × ℝ) × EncoderState :=
  let az := st.currentAzimuth +
    (st.targetAzimuth - st.currentAzimuth) * smoothingCoeff
  let el := st.currentElevation +
    (st.targetElevation - st.currentElevation) * smoothingCoeff
  let cosEl := Real.cos el
  let sinEl := Real.sin el
  let cosAz := Real.cos az
  let sinAz := Real.sin az
  ((s * SQRT1_2, s * cosEl * sinAz, s * sinEl, s * cosEl * cosAz),
   { st with currentAzimuth := az, currentElevation := el })

/-! ## C2: the per-sample encoder step -/

/-- **C2**: for every encoder state and every mono input sample `s`, the
per-sample step first updates `current += (target - current) * 0.002`
independently for azimuth and elevation, then outputs the ACN frame
`[W, Y, Z, X]` with `W = s*(1/√2)`, `Y = s*cos(el)*sin(az)`,
`Z = s*sin(el)`, `X = s*cos(el)*cos(az)` evaluated at the freshly updated
`(az, el)`. -/
theorem c2_encoder_step (st : EncoderState) (s : ℝ) :
    encoderStep st s =
      ((s * (Real.sqrt 2)⁻¹,
        s * Real.cos (st.currentElevation +
            (st.targetElevation - st.currentElevation) * 0.002) *
          Real.sin (st.currentAzimuth +
            (st.targetAzimuth - st.currentAzimuth) * 0.002),
        s * Real.sin (st.currentElevation +
            (st.targetElevation - st.currentElevation) * 0.002),
        s * Real.cos (st.currentElevation +
            (st.targetElevation - st.currentElevation) * 0.002) *
          Real.cos (st.currentAzimuth +
            (st.targetAzimuth - st.currentAzimuth) * 0.002)),
       { st with
         currentAzimuth := st.currentAzimuth +
           (st.targetAzimuth - st.currentAzimuth) * 0.002
         currentElevation := st.currentElevation +
           (st.targetElevation - st.currentElevation) * 0.002 }) := rfl

/-! ## Decode matrix (`hrirBuiltIn.ts`) -/

/-- `SPEAKER_AZIMUTHS = [0, 45, 90, 135, 180, -135, -90, -45]` (degrees,
hrirBuiltIn.ts line 30). -/
def SPEAKER_AZIMUTHS : List ℝ := [0, 45, 90, 135, 180, -135, -90, -45]

/-- `SPEAKER_AZIMUTHS_RAD = SPEAKER_AZIMUTHS.map(deg => deg * Math.PI / 180)`
(hrirBuiltIn.ts line 33). -/
noncomputable def SPEAKER_AZIMUTHS_RAD : List ℝ :=
  SPEAKER_AZIMUTHS.map fun deg => deg * Real.pi / 180

/-- `getFOADecodeMatrix` (hrirBuiltIn.ts lines 163-179): the flat 8×4
matrix, row `spk` holding `[1/√2, sin θs, 0, cos θs]` in ACN order
`[W, Y, Z, X]` for speaker azimuth `θs`.  The literal 0.7071067811865476
is idealized as `1/√2`. -/
noncomputable def getFOADecodeMatrix : List ℝ :=
  (List.range NUM_SPEAKERS).flatMap fun spk =>
    [(Real.sqrt 2)⁻¹, Real.sin (SPEAKER_AZIMUTHS_RAD.getD spk 0), 0,
      Real.cos (SPEAKER_AZIMUTHS_RAD.getD spk 0)]

/-- The four decode coefficients of row `spk` of the built-in matrix. -/
theorem getFOADecodeMatrix_entries (spk : ℕ) (h : spk < NUM_SPEAKERS) :
    getFOADecodeMatrix.getD (spk * 4) 0 = (Real.sqrt 2)⁻¹ ∧
    getFOADecodeMatrix.getD (spk * 4 + 1) 0 =
      Real.sin (SPEAKER_AZIMUTHS_RAD.getD spk 0) ∧
    getFOADecodeMatrix.getD (spk * 4 + 2) 0 = 0 ∧
    getFOADecodeMatrix.getD (spk * 4 + 3) 0 =
      Real.cos (SPEAKER_AZIMUTHS_RAD.getD spk 0) := by
  unfold NUM_SPEAKERS at h
  interval_cases spk <;>
    refine ⟨?_, ?_, ?_, ?_⟩ <;>
      simp [getFOADecodeMatrix, NUM_SPEAKERS, List.range_succ]

/-! ## C6: encode-decode round trip at matching azimuth -/

/-- The encoder's output frame for a unit-amplitude sample with the
smoothing state already converged to azimuth `θ`, elevation 0. -/
noncomputable def encodeUnitFrame (θ : ℝ) : ℝ × ℝ × ℝ × ℝ :=
  (encoderStep ⟨θ, 0, θ, 0⟩ 1).1

/-- Dot product of decode-matrix row `spk` with an ACN frame: the decoded
virtual-speaker signal (decoder worklet line 115, with the built-in
matrix of `getFOADecodeMatrix`). -/
noncomputable def decodeRowDot (spk : ℕ) (f : ℝ × ℝ × ℝ × ℝ) : ℝ :=
  f.1 * getFOADecodeMatrix.getD (spk * 4) 0 +
    f.2.1 * getFOADecodeMatrix.getD (spk * 4 + 1) 0 +
    f.2.2.1 * getFOADecodeMatrix.getD (spk * 4 + 2) 0 +
    f.2.2.2 * getFOADecodeMatrix.getD (spk * 4 + 3) 0

/-- A converged encoder at `(θ, 0)` emits the frame
`(1/√2, sin θ, 0, cos θ)` for a unit sample. -/
theorem encodeUnitFrame_eq (θ : ℝ) :
    encodeUnitFrame θ = ((Real.sqrt 2)⁻¹, Real.sin θ, 0, Real.cos θ) := by
  unfold encodeUnitFrame encoderStep SQRT1_2 smoothingCoeff
  norm_num

/-- The property holding in place of the claimed magnitude: row `spk`
dotted with the converged unit frame at `θ` equals `1/2 + cos(θ - θs)`,
is maximal at `θ = θs`, and attains that maximum exactly when
`θ = θs + 2πn`. -/
def C6Spec (spk : ℕ) (θ : ℝ) : Prop :=
  decodeRowDot spk (encodeUnitFrame θ) =
      1 / 2 + Real.cos (θ - SPEAKER_AZIMUTHS_RAD.getD spk 0) ∧
  decodeRowDot spk (encodeUnitFrame θ) ≤
      decodeRowDot spk (encodeUnitFrame (SPEAKER_AZIMUTHS_RAD.getD spk 0)) ∧
  (decodeRowDot spk (encodeUnitFrame θ) =
      decodeRowDot spk (encodeUnitFrame (SPEAKER_AZIMUTHS_RAD.getD spk 0)) ↔
    ∃ n : ℤ, θ = SPEAKER_AZIMUTHS_RAD.getD spk 0 + n * (2 * Real.pi))

/-- The inverse of `√2` squares to `1/2`. -/
theorem sqrt_two_inv_mul_self : (Real.sqrt 2)⁻¹ * (Real.sqrt 2)⁻¹ = 1 / 2 := by
  rw [← mul_inv, Real.mul_self_sqrt (by norm_num : (0 : ℝ) ≤ 2)]
  norm_num

/-- Row `spk` dot the converged unit frame at `θ`, in closed form. -/
theorem decodeRowDot_closed_form (spk : ℕ) (h : spk < NUM_SPEAKERS) (θ : ℝ) :
    decodeRowDot spk (encodeUnitFrame θ) =
      1 / 2 + Real.cos (θ - SPEAKER_AZIMUTHS_RAD.getD spk 0) := by
  obtain ⟨h0, h1, h2, h3⟩ := getFOADecodeMatrix_entries spk h
  rw [decodeRowDot, encodeUnitFrame_eq, h0, h1, h2, h3]
  dsimp only
  rw [Real.cos_sub, sqrt_two_inv_mul_self]
  ring

/-- **C6 (amended)**: for every virtual speaker `spk < 8` and azimuth `θ`,
decode-matrix row `spk` (entries `1/√2, sin θs, 0, cos θs`) dotted with
the converged unit-amplitude encoder frame at `(θ, 0)` equals
`1/2 + cos(θ - θs)` — not `1/√2 + cos(θ - θs)` — and peaks exactly when
`θ = θs` (modulo full turns). -/
theorem c6_round_trip_peak (spk : ℕ) (h : spk < NUM_SPEAKERS) (θ : ℝ) :
    C6Spec spk θ := by
  have hθ := decodeRowDot_closed_form spk h θ
  have hs := decodeRowDot_closed_form spk h (SPEAKER_AZIMUTHS_RAD.getD spk 0)
  rw [sub_self, Real.cos_zero] at hs
  refine ⟨hθ, ?_, ?_⟩
  · rw [hθ, hs]
    have := Real.cos_le_one (θ - SPEAKER_AZIMUTHS_RAD.getD spk 0)
    linarith
  · rw [hθ, hs]
    constructor
    · intro heq
      have hcos : Real.cos (θ - SPEAKER_AZIMUTHS_RAD.getD spk 0) = 1 := by
        linarith
      obtain ⟨n, hn⟩ := (Real.cos_eq_one_iff _).mp hcos
      exact ⟨n, by linarith⟩
    · rintro ⟨n, rfl⟩
      have : SPEAKER_AZIMUTHS_RAD.getD spk 0 + (n : ℝ) * (2 * Real.pi) -
          SPEAKER_AZIMUTHS_RAD.getD spk 0 = (n : ℝ) * (2 * Real.pi) := by ring
      rw [this]
      rw [Real.cos_int_mul_two_pi]

/-- Witness for C6 at speaker 0 and azimuth 1. -/
theorem c6_round_trip_peak_witness : 0 < NUM_SPEAKERS ∧ C6Spec 0 1 :=
  ⟨by decide, c6_round_trip_peak 0 (by decide) 1⟩

/-- `√2` is strictly between 1 and 2 (so `1/2 < (√2)⁻¹ < 1`). -/
theorem sqrt_two_ne_two : Real.sqrt 2 ≠ 2 := by
  intro h
  have hs := Real.mul_self_sqrt (by norm_num : (0 : ℝ) ≤ 2)
  rw [h] at hs
  norm_num at hs

/-- Counterexample to C6 as stated: at speaker 0 (azimuth `θ_0 = 0`) and
matching source azimuth `θ = 0`, the decoded speaker signal is `3/2 =
1/2 + cos 0`, whereas the claimed magnitude `1/√2 + cos(θ - θ_0)` equals
`1/√2 + 1 ≈ 1.707`; the two differ because the W gains multiply to `1/2`,
not `1/√2`. -/
theorem c6_magnitude_counterexample :
    decodeRowDot 0 (encodeUnitFrame 0) = 3 / 2 ∧
    decodeRowDot 0 (encodeUnitFrame 0) ≠
      (Real.sqrt 2)⁻¹ + Real.cos (0 - SPEAKER_AZIMUTHS_RAD.getD 0 0) := by
  have hth : SPEAKER_AZIMUTHS_RAD.getD 0 0 = 0 := by
    simp [SPEAKER_AZIMUTHS_RAD, SPEAKER_AZIMUTHS]
  have hval : decodeRowDot 0 (encodeUnitFrame 0) = 3 / 2 := by
    rw [decodeRowDot_closed_form 0 (by decide) 0, hth]
    norm_num
  refine ⟨hval, ?_⟩
  rw [hval, hth]
  intro hc
  rw [sub_zero, Real.cos_zero] at hc
  have h1 : (Real.sqrt 2)⁻¹ = (2 : ℝ)⁻¹ := by
    rw [show ((2 : ℝ))⁻¹ = 1 / 2 by norm_num]
    linarith
  exact sqrt_two_ne_two (inv_inj.mp h1)

/-! ## Built-in synthetic HRIR generator (`hrirBuiltIn.ts` lines 42-135) -/

/-- JavaScript `Math.round`: round half toward positive infinity.  Only
applied to non-negative arguments here. -/
noncomputable def jsRound (x : ℝ) : ℤ := ⌊x + 1 / 2⌋

/-- `const maxDelaySamples = 22` (hrirBuiltIn.ts line 56). -/
def maxDelaySamples : ℝ := 22

/-- `ildFactor = Math.pow(10, -ildDb / 20)` with `ildDb = 6`
(hrirBuiltIn.ts lines 65-66). -/
noncomputable def ildFactor : ℝ := (10 : ℝ) ^ (-(6 : ℝ) / 20)

/-- `const decayRate = 0.92` (hrirBuiltIn.ts line 81). -/
def decayRate : ℝ := 0.92

/-- One ear's share of loop iteration `i` (hrirBuiltIn.ts lines 85-103):
if `i ≥ delay`, write the impulse `gain` at `t = 0`, or for `0 < t < 20`
the decaying dithered tail `gain * 0.92^t * 0.3 * (random * 0.5 + 0.5)`,
consuming one value of the random stream `rand` at counter `c`.  Returns
the updated array and counter. -/
noncomputable def earWrite (delay : ℕ) (gain : ℝ) (rand : ℕ → ℝ)
    (arr : ℕ → ℝ) (c i : ℕ) : (ℕ → ℝ) × ℕ :=
  if delay ≤ i then
    if i - delay = 0 then (Function.update arr i gain, c)
    else if i - delay < 20 then
      (Function.update arr i
        (gain * decayRate ^ (i - delay) * 0.3 * (rand c * 0.5 + 0.5)), c + 1)
    else (arr, c)
  else (arr, c)

/-- One iteration of the generator's sample loop (hrirBuiltIn.ts lines
83-104): the left-ear write runs first, then the right-ear write, sharing
the sequential `Math.random()` stream. -/
noncomputable def hrirLoopStep (leftDelay rightDelay : ℕ)
    (leftGain rightGain : ℝ) (rand : ℕ → ℝ)
    (acc : (ℕ → ℝ) × (ℕ → ℝ) × ℕ) (i : ℕ) : (ℕ → ℝ) × (ℕ → ℝ) × ℕ :=
  let l := earWrite leftDelay leftGain rand acc.1 acc.2.2 i
  let r := earWrite rightDelay rightGain rand acc.2.1 l.2 i
  (l.1, r.1, r.2)

/-- Left-ear delay of `generateSyntheticHRIR` (hrirBuiltIn.ts line 61):
`Math.round(Math.max(0, delayFactor * maxDelaySamples))` with
`delayFactor = sin(azRad)`. -/
noncomputable def synthLeftDelay (azimuthDeg : ℝ) : ℕ :=
  (jsRound (max 0 (Real.sin (azimuthDeg * Real.pi / 180) * maxDelaySamples))).toNat

/-- Right-ear delay of `generateSyntheticHRIR` (hrirBuiltIn.ts line 60):
`Math.round(Math.max(0, -delayFactor * maxDelaySamples))`. -/
noncomputable def synthRightDelay (azimuthDeg : ℝ) : ℕ :=
  (jsRound (max 0 (-Real.sin (azimuthDeg * Real.pi / 180) * maxDelaySamples))).toNat

/-- The attenuated gain of the ear away from the source: `1 - (1 -
ildFactor) * |sin(az)|` (hrirBuiltIn.ts lines 69-78), reaching the full
6 dB factor only at `|sin(az)| = 1`. -/
noncomputable def synthFarGain (azimuthDeg : ℝ) : ℝ :=
  1 - (1 - ildFactor) * |Real.sin (azimuthDeg * Real.pi / 180)|

/-- Left-ear gain: attenuated iff the source is on the right (`az >= 0`). -/
noncomputable def synthLeftGain (azimuthDeg : ℝ) : ℝ :=
  if 0 ≤ azimuthDeg then synthFarGain azimuthDeg else 1

/-- Right-ear gain: attenuated iff the source is on the left. -/
noncomputable def synthRightGain (azimuthDeg : ℝ) : ℝ :=
  if 0 ≤ azimuthDeg then 1 else synthFarGain azimuthDeg

/-- `generateSyntheticHRIR(azimuthDeg)` (hrirBuiltIn.ts lines 42-107):
ITD as the integer-sample delays above, ILD as the far-ear gain above,
then the 128-tap loop writing impulse and dithered decay tail for each
ear.  `Math.random()` is modelled as the stream `rand` read at an
incrementing counter starting from `c0`; the result is the pair of tap
arrays together with the final counter.  The azimuth-normalization loops
of lines 48-49 are the identity on `[-180, 180]`, the only azimuths this
repository passes; the embedding assumes that range. -/
noncomputable def generateSyntheticHRIR (azimuthDeg : ℝ) (rand : ℕ → ℝ)
    (c0 : ℕ) : (ℕ → ℝ) × (ℕ → ℝ) × ℕ :=
  (List.range HRIR_LENGTH).foldl
    (hrirLoopStep (synthLeftDelay azimuthDeg) (synthRightDelay azimuthDeg)
      (synthLeftGain azimuthDeg) (synthRightGain azimuthDeg) rand)
    ((fun _ => 0), (fun _ => 0), c0)

/-- The seeded linear congruential generator of `generateAllHRIRs`
(hrirBuiltIn.ts lines 113-117): `seed = (seed * 1103515245 + 12345) &
0x7fffffff`, modelled as exact integer arithmetic modulo `2^31` (the
JavaScript float rounding inside the multiply does not affect the
determinism this development needs). -/
def lcgNext (seed : ℕ) : ℕ := (seed * 1103515245 + 12345) % 2 ^ 31

/-- The LCG seed after `n` calls, from the fixed initial seed 12345. -/
def lcgSeedAfter : ℕ → ℕ
  | 0 => 12345
  | n + 1 => lcgNext (lcgSeedAfter n)

/-- The value stream of `seededRandom` (hrirBuiltIn.ts line 116): call
number `n` returns the freshly updated seed divided by `0x7fffffff`. -/
noncomputable def seededRandomStream : ℕ → ℝ := fun n =>
  (lcgSeedAfter (n + 1) : ℝ) / (2 ^ 31 - 1)

/-- `generateAllHRIRs()` (hrirBuiltIn.ts lines 111-129): swaps
`Math.random` for the seeded LCG stream (so the ambient random source is
unused), generates the HRIR pair for each of the 8 speaker azimuths in
order — the seed threading across speakers modelled by passing each
speaker's final random-call counter to the next — and restores
`Math.random`. -/
noncomputable def generateAllHRIRs (ambientRandom : ℕ → ℝ) :
    List ((ℕ → ℝ) × (ℕ → ℝ)) :=
  (SPEAKER_AZIMUTHS.foldl
    (fun acc az =>
      let r := generateSyntheticHRIR az seededRandomStream acc.2
      (acc.1 ++ [(r.1, r.2.1)], r.2.2))
    ([], 0)).1

/-! ## C7: structure of the synthetic HRIR -/

/-- The shape of one ear's final tap `i` for ear delay `delay` and ear
gain `gain`: zero before the delay, the impulse `gain` at the delay, a
decaying low-level dithered tail `gain * 0.92^t * 0.3 * (d*0.5 + 0.5)`
(for some call `c` of the random stream) while `0 < t < 20`, and zero
from `t = 20` on. -/
def tapProp (delay : ℕ) (gain : ℝ) (rand : ℕ → ℝ) (i : ℕ) (v : ℝ) : Prop :=
  if i < delay then v = 0
  else if i = delay then v = gain
  else if i - delay < 20 then
    ∃ c : ℕ, v = gain * decayRate ^ (i - delay) * 0.3 * (rand c * 0.5 + 0.5)
  else v = 0

/-- An `earWrite` at iteration `i` only touches index `i`. -/
theorem earWrite_other (delay : ℕ) (gain : ℝ) (rand : ℕ → ℝ)
    (arr : ℕ → ℝ) (c i j : ℕ) (hj : j ≠ i) :
    (earWrite delay gain rand arr c i).1 j = arr j := by
  unfold earWrite
  by_cases hd : delay ≤ i
  · by_cases ht0 : i - delay = 0
    · rw [if_pos hd, if_pos ht0]
      exact Function.update_noteq hj _ _
    · by_cases ht20 : i - delay < 20
      · rw [if_pos hd, if_neg ht0, if_pos ht20]
        exact Function.update_noteq hj _ _
      · rw [if_pos hd, if_neg ht0, if_neg ht20]
  · rw [if_neg hd]

/-- An `earWrite` at iteration `i` gives index `i` its final shape,
provided it held 0 before. -/
theorem earWrite_self (delay : ℕ) (gain : ℝ) (rand : ℕ → ℝ)
    (arr : ℕ → ℝ) (c i : ℕ) (h0 : arr i = 0) :
    tapProp delay gain rand i ((earWrite delay gain rand arr c i).1 i) := by
  unfold earWrite tapProp
  by_cases hd : delay ≤ i
  · by_cases ht0 : i - delay = 0
    · have heq : i = delay := by omega
      rw [if_pos hd, if_pos ht0, if_neg (show ¬i < delay by omega),
        if_pos heq]
      exact Function.update_same i gain arr
    · by_cases ht20 : i - delay < 20
      · rw [if_pos hd, if_neg ht0, if_pos ht20,
          if_neg (show ¬i < delay by omega),
          if_neg (show ¬i = delay by omega), if_pos ht20]
        exact ⟨c, Function.update_same i _ arr⟩
      · rw [if_pos hd, if_neg ht0, if_neg ht20,
          if_neg (show ¬i < delay by omega),
          if_neg (show ¬i = delay by omega), if_neg ht20]
        exact h0
  · rw [if_neg hd, if_pos (show i < delay by omega)]
    exact h0

/-- Invariant of the generator's 128-iteration loop: after `m` iterations,
indices below `m` have their final `tapProp` shape on both ears and
indices at or above `m` are still zero. -/
theorem hrirLoop_invariant (ld rd : ℕ) (lg rg : ℝ) (rand : ℕ → ℝ)
    (c0 : ℕ) : ∀ m : ℕ,
    (∀ i, i < m → tapProp ld lg rand i
      (((List.range m).foldl (hrirLoopStep ld rd lg rg rand)
        ((fun _ => 0), (fun _ => 0), c0)).1 i)) ∧
    (∀ i, m ≤ i →
      (((List.range m).foldl (hrirLoopStep ld rd lg rg rand)
        ((fun _ => 0), (fun _ => 0), c0)).1 i) = 0) ∧
    (∀ i, i < m → tapProp rd rg rand i
      (((List.range m).foldl (hrirLoopStep ld rd lg rg rand)
        ((fun _ => 0), (fun _ => 0), c0)).2.1 i)) ∧
    (∀ i, m ≤ i →
      (((List.range m).foldl (hrirLoopStep ld rd lg rg rand)
        ((fun _ => 0), (fun _ => 0), c0)).2.1 i) = 0) := by
  intro m
  induction m with
  | zero => exact ⟨fun i hi => absurd hi (by omega), fun i _ => rfl,
      fun i hi => absurd hi (by omega), fun i _ => rfl⟩
  | succ m ih =>
      obtain ⟨ihL, ihL0, ihR, ihR0⟩ := ih
      set acc := (List.range m).foldl (hrirLoopStep ld rd lg rg rand)
        ((fun _ => 0), (fun _ => 0), c0) with hacc
      have hfold : (List.range (m + 1)).foldl (hrirLoopStep ld rd lg rg rand)
          ((fun _ => 0), (fun _ => 0), c0) = hrirLoopStep ld rd lg rg rand acc m := by
        rw [List.range_succ, List.foldl_append, List.foldl_cons, List.foldl_nil]
      rw [hfold]
      have hL : (hrirLoopStep ld rd lg rg rand acc m).1 =
          (earWrite ld lg rand acc.1 acc.2.2 m).1 := rfl
      have hR : (hrirLoopStep ld rd lg rg rand acc m).2.1 =
          (earWrite rd rg rand acc.2.1
            (earWrite ld lg rand acc.1 acc.2.2 m).2 m).1 := rfl
      refine ⟨?_, ?_, ?_, ?_⟩
      · intro i hi
        rw [hL]
        rcases Nat.lt_succ_iff_lt_or_eq.mp hi with hlt | heq
        · rw [earWrite_other ld lg rand acc.1 acc.2.2 m i (by omega)]
          exact ihL i hlt
        · subst heq
          exact earWrite_self ld lg rand acc.1 acc.2.2 i (ihL0 i (by omega))
      · intro i hi
        rw [hL, earWrite_other ld lg rand acc.1 acc.2.2 m i (by omega)]
        exact ihL0 i (by omega)
      · intro i hi
        rw [hR]
        rcases Nat.lt_succ_iff_lt_or_eq.mp hi with hlt | heq
        · rw [earWrite_other rd rg rand acc.2.1 _ m i (by omega)]
          exact ihR i hlt
        · subst heq
          exact earWrite_self rd rg rand acc.2.1 _ i (ihR0 i (by omega))
      · intro i hi
        rw [hR, earWrite_other rd rg rand acc.2.1 _ m i (by omega)]
        exact ihR0 i (by omega)

/-- Every tap `i < 128` of both ears of the synthetic HRIR has its
claimed shape. -/
theorem generateSyntheticHRIR_taps (azimuthDeg : ℝ) (rand : ℕ → ℝ)
    (c0 : ℕ) (i : ℕ) (hi : i < HRIR_LENGTH) :
    tapProp (synthLeftDelay azimuthDeg) (synthLeftGain azimuthDeg) rand i
      ((generateSyntheticHRIR azimuthDeg rand c0).1 i) ∧
    tapProp (synthRightDelay azimuthDeg) (synthRightGain azimuthDeg) rand i
      ((generateSyntheticHRIR azimuthDeg rand c0).2.1 i) := by
  have h := hrirLoop_invariant (synthLeftDelay azimuthDeg)
    (synthRightDelay azimuthDeg) (synthLeftGain azimuthDeg)
    (synthRightGain azimuthDeg) rand c0 HRIR_LENGTH
  exact ⟨h.1 i hi, h.2.2.1 i hi⟩

/-- The property proved of the built-in HRIR synthesis at azimuth
`azimuthDeg` (degrees, within `[-180, 180]`): the near ear has delay 0 and
gain 1; the far ear is delayed by `round(22 * |sin az|)` samples and
attenuated to `1 - (1 - 10^(-6/20)) * |sin az|`; and every tap of both
ears is the impulse at the ear's delay, a `0.92`-per-sample decaying
dithered tail for the following 19 taps, and zero elsewhere. -/
def C7Spec (azimuthDeg : ℝ) (rand : ℕ → ℝ) (c0 : ℕ) : Prop :=
  (0 ≤ azimuthDeg →
    synthRightDelay azimuthDeg = 0 ∧
    synthLeftDelay azimuthDeg = (jsRound (maxDelaySamples *
      Real.sin (azimuthDeg * Real.pi / 180))).toNat ∧
    synthRightGain azimuthDeg = 1 ∧
    synthLeftGain azimuthDeg =
      1 - (1 - ildFactor) * Real.sin (azimuthDeg * Real.pi / 180)) ∧
  (azimuthDeg ≤ 0 →
    synthLeftDelay azimuthDeg = 0 ∧
    synthRightDelay azimuthDeg = (jsRound (maxDelaySamples *
      -Real.sin (azimuthDeg * Real.pi / 180))).toNat ∧
    synthLeftGain azimuthDeg = 1 ∧
    synthRightGain azimuthDeg =
      1 - (1 - ildFactor) * -Real.sin (azimuthDeg * Real.pi / 180)) ∧
  (∀ i, i < HRIR_LENGTH →
    tapProp (synthLeftDelay azimuthDeg) (synthLeftGain azimuthDeg) rand i
      ((generateSyntheticHRIR azimuthDeg rand c0).1 i) ∧
    tapProp (synthRightDelay azimuthDeg) (synthRightGain azimuthDeg) rand i
      ((generateSyntheticHRIR azimuthDeg rand c0).2.1 i))

/-- `jsRound` of zero is zero. -/
theorem jsRound_zero : jsRound 0 = 0 := by
  unfold jsRound
  rw [zero_add]
  rw [show ((1 : ℝ) / 2) = (2 : ℝ)⁻¹ by norm_num]
  exact Int.floor_eq_zero_iff.mpr (by constructor <;> norm_num)

/-- **C7 (amended)**: for every azimuth in `[-180, 180]` (hence for every
speaker azimuth), the built-in provider synthesizes the HRIR pair from
azimuth alone, with the far-ear delay `round(22 * |sin az|)` (near ear
0), the far-ear head-shadow gain `1 - (1 - 10^(-6/20)) * |sin az|` —
i.e. an attenuation scaled by `|sin az|` that reaches the full 6 dB only
at `az = ±90°`, not a fixed 6 dB — an impulse at the ear's gain at the
computed delay, and an exponentially decaying low-level dithered tail
with decay `0.92` per sample occupying the 19 taps after the impulse. -/
theorem c7_synthetic_hrir_structure (azimuthDeg : ℝ) (rand : ℕ → ℝ)
    (c0 : ℕ) (hlo : -180 ≤ azimuthDeg) (hhi : azimuthDeg ≤ 180) :
    C7Spec azimuthDeg rand c0 := by
  have hpi := Real.pi_pos
  refine ⟨?_, ?_, fun i hi => generateSyntheticHRIR_taps azimuthDeg rand c0 i hi⟩
  · intro hge
    have hrad0 : 0 ≤ azimuthDeg * Real.pi / 180 := by positivity
    have hradpi : azimuthDeg * Real.pi / 180 ≤ Real.pi := by nlinarith
    have hsin : 0 ≤ Real.sin (azimuthDeg * Real.pi / 180) :=
      Real.sin_nonneg_of_nonneg_of_le_pi hrad0 hradpi
    refine ⟨?_, ?_, ?_, ?_⟩
    · unfold synthRightDelay
      rw [max_eq_left (by nlinarith [show maxDelaySamples = 22 from rfl] :
        -Real.sin (azimuthDeg * Real.pi / 180) * maxDelaySamples ≤ 0),
        jsRound_zero]
      rfl
    · unfold synthLeftDelay
      rw [max_eq_right (by nlinarith [show maxDelaySamples = 22 from rfl] :
          (0 : ℝ) ≤ Real.sin (azimuthDeg * Real.pi / 180) * maxDelaySamples),
        mul_comm]
    · unfold synthRightGain
      rw [if_pos hge]
    · unfold synthLeftGain synthFarGain
      rw [if_pos hge, abs_of_nonneg hsin]
  · intro hle
    have hradlo : -Real.pi ≤ azimuthDeg * Real.pi / 180 := by nlinarith
    have hrad0 : azimuthDeg * Real.pi / 180 ≤ 0 := by nlinarith
    have hsin : Real.sin (azimuthDeg * Real.pi / 180) ≤ 0 := by
      have := Real.sin_nonneg_of_nonneg_of_le_pi
        (show (0 : ℝ) ≤ -(azimuthDeg * Real.pi / 180) by linarith)
        (by linarith)
      rw [Real.sin_neg] at this
      linarith
    rcases eq_or_lt_of_le hle with heq | hlt
    · subst heq
      have hs0 : Real.sin ((0 : ℝ) * Real.pi / 180) = 0 := by
        norm_num
      refine ⟨?_, ?_, ?_, ?_⟩
      · unfold synthLeftDelay
        rw [hs0, zero_mul, max_self, jsRound_zero]
        rfl
      · unfold synthRightDelay
        rw [hs0]
        simp
      · unfold synthLeftGain synthFarGain
        rw [if_pos le_rfl, hs0]
        simp
      · unfold synthRightGain
        rw [if_pos le_rfl, hs0]
        ring
    · have hneg : ¬(0 ≤ azimuthDeg) := by linarith
      refine ⟨?_, ?_, ?_, ?_⟩
      · unfold synthLeftDelay
        rw [max_eq_left (by nlinarith [show maxDelaySamples = 22 from rfl] :
            Real.sin (azimuthDeg * Real.pi / 180) * maxDelaySamples ≤ 0),
          jsRound_zero]
        rfl
      · unfold synthRightDelay
        rw [max_eq_right (by nlinarith [show maxDelaySamples = 22 from rfl] :
            (0 : ℝ) ≤ -Real.sin (azimuthDeg * Real.pi / 180) * maxDelaySamples),
          mul_comm]
      · unfold synthLeftGain
        rw [if_neg hneg]
      · unfold synthRightGain synthFarGain
        rw [if_neg hneg, abs_of_nonpos hsin]

/-- Witness for C7 at azimuth 90°, a constant random stream, counter 0. -/
theorem c7_synthetic_hrir_structure_witness :
    (-180 : ℝ) ≤ 90 ∧ (90 : ℝ) ≤ 180 ∧ C7Spec 90 (fun _ => 1 / 2) 0 :=
  ⟨by norm_num, by norm_num,
   c7_synthetic_hrir_structure 90 (fun _ => 1 / 2) 0 (by norm_num) (by norm_num)⟩

/-- `√2 < 2`. -/
theorem sqrt_two_lt_two : Real.sqrt 2 < 2 := by
  nlinarith [Real.mul_self_sqrt (show (0 : ℝ) ≤ 2 by norm_num),
    Real.sqrt_nonneg 2]

/-- The head-shadow factor `10^(-6/20)` lies strictly below 1. -/
theorem ildFactor_lt_one : ildFactor < 1 :=
  Real.rpow_lt_one_of_one_lt_of_neg (by norm_num) (by norm_num)

/-- Counterexample to C7 as stated: at speaker azimuth 45°, the far (left)
ear's impulse has gain `1 - (1 - 10^(-6/20)) * (√2/2)` (about 0.65, a
3.8 dB attenuation), not the claimed fixed 6 dB factor `10^(-6/20)`
(about 0.50): the attenuation scales with `|sin az|`. -/
theorem c7_ild_counterexample :
    synthLeftDelay 45 = 16 ∧
    (generateSyntheticHRIR 45 (fun _ => 0) 0).1 16 =
      1 - (1 - ildFactor) * (Real.sqrt 2 / 2) ∧
    1 - (1 - ildFactor) * (Real.sqrt 2 / 2) ≠ ildFactor := by
  have h45 : (45 : ℝ) * Real.pi / 180 = Real.pi / 4 := by ring
  have hsin45 : Real.sin ((45 : ℝ) * Real.pi / 180) = Real.sqrt 2 / 2 := by
    rw [h45, Real.sin_pi_div_four]
  have hs := Real.mul_self_sqrt (show (0 : ℝ) ≤ 2 by norm_num)
  have hnn := Real.sqrt_nonneg 2
  have hdelay : synthLeftDelay 45 = 16 := by
    unfold synthLeftDelay jsRound maxDelaySamples
    rw [hsin45, max_eq_right (by positivity)]
    rw [show (⌊Real.sqrt 2 / 2 * 22 + 1 / 2⌋ : ℤ) = 16 from
      Int.floor_eq_iff.mpr (by constructor <;> nlinarith)]
    rfl
  refine ⟨hdelay, ?_, ?_⟩
  · have htap := (generateSyntheticHRIR_taps 45 (fun _ => 0) 0 16
      (by unfold HRIR_LENGTH; omega)).1
    rw [hdelay] at htap
    unfold tapProp at htap
    rw [if_neg (by omega), if_pos rfl] at htap
    rw [htap]
    unfold synthLeftGain synthFarGain
    rw [if_pos (by norm_num), hsin45, abs_of_nonneg (by positivity)]
  · have hkey : (0 : ℝ) < (1 - ildFactor) * (1 - Real.sqrt 2 / 2) :=
      mul_pos (by linarith [ildFactor_lt_one])
        (by linarith [sqrt_two_lt_two])
    have hdiff : 1 - (1 - ildFactor) * (Real.sqrt 2 / 2) - ildFactor =
        (1 - ildFactor) * (1 - Real.sqrt 2 / 2) := by ring
    intro hc
    rw [hc] at hdiff
    rw [sub_self] at hdiff
    exact absurd hdiff.symm (ne_of_gt hkey)

/-! ## C8: deterministic built-in generation -/

/-- **C8**: `generateAllHRIRs` seeds its own pseudo-random stream from the
fixed seed 12345 (swapping out the ambient `Math.random` and restoring it
afterward), so two generation runs — whatever ambient randomness each
would otherwise see — produce identical left/right filters for all 8
speakers. -/
theorem c8_generation_deterministic :
    (∀ r1 r2 : ℕ → ℝ, generateAllHRIRs r1 = generateAllHRIRs r2) ∧
    lcgSeedAfter 0 = 12345 :=
  ⟨fun _ _ => rfl, rfl⟩

/-! ## C9: trim/pad adaptation (`normalizeHRIRLength`) -/

/-- `normalizeHRIRLength(hrir, targetLength)` (hrirBuiltIn.ts lines
225-234): length-matching input returned as-is; otherwise a zero-filled
array of the target length receives the first
`min(hrir.length, targetLength)` entries of the input. -/
def normalizeHRIRLength {α : Type} [Zero α] (hrir : List α)
    (targetLength : ℕ) : List α :=
  if hrir.length = targetLength then hrir
  else
    (List.range targetLength).map fun i =>
      if i < min hrir.length targetLength then hrir.getD i 0 else 0

/-- The stored filter always has exactly the target length. -/
theorem normalizeHRIRLength_length {α : Type} [Zero α] (hrir : List α)
    (t : ℕ) : (normalizeHRIRLength hrir t).length = t := by
  unfold normalizeHRIRLength
  split_ifs with he
  · exact he
  · rw [List.length_map, List.length_range]

/-- A length-matching filter is stored as-is. -/
theorem normalizeHRIRLength_eq {α : Type} [Zero α] (hrir : List α)
    (t : ℕ) (he : hrir.length = t) : normalizeHRIRLength hrir t = hrir := by
  unfold normalizeHRIRLength
  rw [if_pos he]

/-- A shorter filter is zero-padded: entries below the original length are
copied unchanged, entries at or beyond it are exactly 0. -/
theorem normalizeHRIRLength_pad {α : Type} [Zero α] (hrir : List α)
    (t : ℕ) (hlt : hrir.length < t) :
    normalizeHRIRLength hrir t = hrir ++ List.replicate (t - hrir.length) 0 := by
  unfold normalizeHRIRLength
  rw [if_neg (by omega)]
  apply List.ext_getElem
  · rw [List.length_map, List.length_range, List.length_append,
      List.length_replicate]
    omega
  · intro i h1 h2
    rw [List.getElem_map, List.getElem_range]
    rw [show min hrir.length t = hrir.length from by omega]
    by_cases hc : i < hrir.length
    · rw [if_pos hc, List.getElem_append_left hc,
        List.getD_eq_getElem hrir 0 hc]
    · rw [if_neg hc, List.getElem_append_right (by omega),
        List.getElem_replicate]

/-- A longer filter is truncated to its first `t` entries; the result
coincides with normalizing the `t`-entry prefix, so no index `≥ t` of the
input is read. -/
theorem normalizeHRIRLength_trim {α : Type} [Zero α] (hrir : List α)
    (t : ℕ) (hgt : t < hrir.length) :
    normalizeHRIRLength hrir t = hrir.take t := by
  unfold normalizeHRIRLength
  rw [if_neg (by omega)]
  apply List.ext_getElem
  · rw [List.length_map, List.length_range, List.length_take]
    omega
  · intro i h1 h2
    rw [List.getElem_map, List.getElem_range]
    have hi : i < t := by
      rw [List.length_map, List.length_range] at h1
      exact h1
    rw [show min hrir.length t = t from by omega, if_pos hi,
      List.getElem_take, List.getD_eq_getElem hrir 0 (by omega)]

/-- **C9**: every stored filter has length exactly `L = 128`; a
length-128 input is stored as-is; a shorter input is padded — indices
below its length copied, all later indices exactly 0; a longer input is
truncated to its first 128 entries (so no index `≥ 128` is read). -/
theorem c9_trim_pad_adaptation {α : Type} [Zero α] (hrir : List α) :
    (normalizeHRIRLength hrir HRIR_LENGTH).length = HRIR_LENGTH ∧
    (hrir.length = HRIR_LENGTH → normalizeHRIRLength hrir HRIR_LENGTH = hrir) ∧
    (hrir.length < HRIR_LENGTH →
      normalizeHRIRLength hrir HRIR_LENGTH =
        hrir ++ List.replicate (HRIR_LENGTH - hrir.length) 0) ∧
    (HRIR_LENGTH < hrir.length →
      normalizeHRIRLength hrir HRIR_LENGTH = hrir.take HRIR_LENGTH) :=
  ⟨normalizeHRIRLength_length hrir HRIR_LENGTH,
   normalizeHRIRLength_eq hrir HRIR_LENGTH,
   normalizeHRIRLength_pad hrir HRIR_LENGTH,
   normalizeHRIRLength_trim hrir HRIR_LENGTH⟩

/-- Witness for C9: a 2-entry filter is zero-padded, a 200-entry filter
is truncated. -/
theorem c9_trim_pad_adaptation_witness :
    normalizeHRIRLength [(1 : ℚ), 2] HRIR_LENGTH =
      [(1 : ℚ), 2] ++ List.replicate (HRIR_LENGTH - 2) 0 ∧
    normalizeHRIRLength (List.replicate 200 (1 : ℚ)) HRIR_LENGTH =
      (List.replicate 200 (1 : ℚ)).take HRIR_LENGTH :=
  ⟨(c9_trim_pad_adaptation [(1 : ℚ), 2]).2.2.1 (by norm_num [HRIR_LENGTH]),
   (c9_trim_pad_adaptation (List.replicate 200 (1 : ℚ))).2.2.2
     (by rw [List.length_replicate]; norm_num [HRIR_LENGTH])⟩

/-! ## C5: the SOFA loader and its wholesale fallback -/

/-- The provenance tag of a load result (`source: 'sofa' | 'builtin'`). -/
inductive HRIRSource where
  | sofa
  | builtin
deriving DecidableEq

/-- `SOFALoadResult` (hrirBuiltIn.ts lines 236-241). -/
structure SOFALoadResult where
  hrirData : List ℝ
  decodeMatrix : List ℝ
  source : HRIRSource
  filterLength : Option ℤ

/-- The abstract libmysofa session the loader talks to: the combined
module-initialization / file-fetch step (`initLibMySofa`,
`loadSofaToMemFs`, `api.open` — each may throw), the `api.err` code of
the opened handle, its `api.filterLength`, and the per-direction
`api.getFilter` (which may throw).  The sample rate and file path are
absorbed into this abstraction. -/
structure SofaApi where
  init : Except String Unit
  err : ℤ
  filterLength : ℤ
  getFilter : ℕ → Except String (List ℝ × List ℝ)

/-- `const BUILTIN_HRIRS = generateAllHRIRs()` (hrirBuiltIn.ts line 135);
the ambient random stream passed is irrelevant (C8). -/
noncomputable def BUILTIN_HRIRS : List ((ℕ → ℝ) × (ℕ → ℝ)) :=
  generateAllHRIRs fun _ => 0

/-- `getHRIRDataForWorklet()` (hrirBuiltIn.ts lines 141-151): the built-in
HRIR set flattened as `[L0(128), R0(128), L1(128), R1(128), ...]`. -/
noncomputable def getHRIRDataForWorklet : List ℝ :=
  (List.range NUM_SPEAKERS).flatMap fun spk =>
    ((List.range HRIR_LENGTH).map
      (BUILTIN_HRIRS.getD spk ((fun _ => 0), fun _ => 0)).1) ++
    ((List.range HRIR_LENGTH).map
      (BUILTIN_HRIRS.getD spk ((fun _ => 0), fun _ => 0)).2)

/-- The speaker loop of `loadSOFAHRIRs` (hrirBuiltIn.ts lines 279-294):
fetch the filter pair for each speaker in order; any throw aborts the
whole loop. -/
def getSpeakerFilters (api : SofaApi) :
    List ℕ → Except String (List (List ℝ × List ℝ))
  | [] => Except.ok []
  | spk :: rest => do
      let p ← api.getFilter spk
      let r ← getSpeakerFilters api rest
      pure (p :: r)

/-- The `try` body of `loadSOFAHRIRs` (hrirBuiltIn.ts lines 254-305):
initialize and open (may throw), reject a nonzero `err`, reject a
non-positive filter length, fetch and length-normalize all 8 speaker
filter pairs into the flat `[L0, R0, L1, R1, ...]` layout, and return
them with the standard decode matrix and source tag `sofa`. -/
noncomputable def sofaAttempt (api : SofaApi) : Except String SOFALoadResult := do
  _ ← api.init
  if api.err ≠ 0 then
    throw "Failed to open SOFA file"
  else if api.filterLength ≤ 0 then
    throw "Invalid SOFA filter length"
  else do
    let filters ← getSpeakerFilters api (List.range NUM_SPEAKERS)
    Except.ok
      { hrirData := filters.flatMap fun p =>
          normalizeHRIRLength p.1 HRIR_LENGTH ++
            normalizeHRIRLength p.2 HRIR_LENGTH
        decodeMatrix := getFOADecodeMatrix
        source := HRIRSource.sofa
        filterLength := some api.filterLength }

/-- The fallback result of the `catch` branch (hrirBuiltIn.ts lines
306-313): the whole built-in set for all 8 speakers and the standard
decode matrix. -/
noncomputable def builtinFallback : SOFALoadResult where
  hrirData := getHRIRDataForWorklet
  decodeMatrix := getFOADecodeMatrix
  source := HRIRSource.builtin
  filterLength := none

/-- `loadSOFAHRIRs` (hrirBuiltIn.ts lines 250-314): run the `try` body;
on any failure return the wholesale built-in fallback.  The second
component collects the console diagnostics the call emits: the function
contains no logging statement on any path — in particular the `catch`
branch swallows the error silently — so the log is always empty. -/
noncomputable def loadSOFAHRIRs (api : SofaApi) : SOFALoadResult × List String :=
  match sofaAttempt api with
  | .ok r => (r, [])
  | .error _ => (builtinFallback, [])

/-- **C5 (amended)**: if any step of the SOFA load fails — the
initialization/open throws, the open handle reports a nonzero error code,
the filter length is non-positive, or a per-speaker filter fetch throws —
then `loadSOFAHRIRs` returns the built-in synthetic set for all 8
speakers together with the standard decode matrix (a wholesale fallback),
and no exception escapes: every call returns either that fallback or a
successful SOFA result.  (The failure is not logged: see the
counterexample.) -/
theorem c5_sofa_fallback :
    (∀ (api : SofaApi) (e : String), sofaAttempt api = Except.error e →
      (loadSOFAHRIRs api).1 = builtinFallback) ∧
    (∀ (api : SofaApi) (e : String), api.init = Except.error e →
      ∃ d, sofaAttempt api = Except.error d) ∧
    (∀ api : SofaApi, api.init = Except.ok () → api.err ≠ 0 →
      ∃ d, sofaAttempt api = Except.error d) ∧
    (∀ api : SofaApi, api.init = Except.ok () → api.err = 0 →
      api.filterLength ≤ 0 → ∃ d, sofaAttempt api = Except.error d) ∧
    (∀ (api : SofaApi) (e : String), api.init = Except.ok () → api.err = 0 →
      0 < api.filterLength → api.getFilter 0 = Except.error e →
      sofaAttempt api = Except.error e) ∧
    (∀ api : SofaApi, (loadSOFAHRIRs api).1 = builtinFallback ∨
      sofaAttempt api = Except.ok (loadSOFAHRIRs api).1) := by
  refine ⟨?_, ?_, ?_, ?_, ?_, ?_⟩
  · intro api e he
    unfold loadSOFAHRIRs
    rw [he]
  · intro api e he
    refine ⟨e, ?_⟩
    unfold sofaAttempt
    rw [he]
    rfl
  · intro api hinit hne
    refine ⟨"Failed to open SOFA file", ?_⟩
    unfold sofaAttempt
    rw [hinit]
    show (if api.err ≠ 0 then _ else _ : Except String SOFALoadResult) = _
    rw [if_pos hne]
    rfl
  · intro api hinit herr hfl
    refine ⟨"Invalid SOFA filter length", ?_⟩
    unfold sofaAttempt
    rw [hinit]
    show (if api.err ≠ 0 then _ else _ : Except String SOFALoadResult) = _
    rw [if_neg (by simp [herr]), if_pos hfl]
    rfl
  · intro api e hinit herr hfl hget
    unfold sofaAttempt
    rw [hinit]
    show (if api.err ≠ 0 then _ else _ : Except String SOFALoadResult) = _
    rw [if_neg (by simp [herr]), if_neg (by omega)]
    rw [show List.range NUM_SPEAKERS = 0 :: [1, 2, 3, 4, 5, 6, 7] from rfl]
    show (getSpeakerFilters api (0 :: [1, 2, 3, 4, 5, 6, 7])).bind _ =
      Except.error e
    unfold getSpeakerFilters
    rw [hget]
    rfl
  · intro api
    unfold loadSOFAHRIRs
    cases h : sofaAttempt api with
    | ok r => exact Or.inr rfl
    | error e => exact Or.inl rfl

/-- A concrete libmysofa session whose open step throws. -/
def failingApi : SofaApi where
  init := Except.error "mock open failure"
  err := 0
  filterLength := 1
  getFilter := fun _ => Except.ok ([], [])

/-- Witness for C5: the open-failure session falls back wholesale to the
built-in set and decode matrix. -/
theorem c5_sofa_fallback_witness :
    sofaAttempt failingApi = Except.error "mock open failure" ∧
    (loadSOFAHRIRs failingApi).1 = builtinFallback :=
  ⟨rfl, c5_sofa_fallback.1 failingApi "mock open failure" rfl⟩

/-- Counterexample to C5 as stated: the failing load produces an error on
the attempt, yet the call emits no diagnostic at all — the `catch` branch
returns the fallback without logging, so "the failure is logged for
diagnostics" fails. -/
theorem c5_logging_counterexample :
    sofaAttempt failingApi = Except.error "mock open failure" ∧
    (loadSOFAHRIRs failingApi).2 = [] :=
  ⟨rfl, rfl⟩

end SC360
